import Mathlib

/-!
Verification of the OpenFlow message-packing contracts exercised by
`src/python/oftest/message_unittests.py`.

The repository's visible source is the unit-test file only; the message
library it imports (`oftest.message`: `ofp_match`, `flow_stats_entry`,
`flow_stats_reply`, `action_set_output_port`,
`instruction_apply_actions`) is not part of the given sources.  The
definitions below are therefore modelled from the specification's
reconstruction of that library: big-endian fixed-width field packing,
an 88-byte match block, 16-byte output actions, length-prefixed
apply-actions instructions (8-byte header), a 48-byte flow-stats-entry
header in front of the embedded match, and a 12-byte flow-stats-reply
header.  The exact padding placement inside each record is not fixed by
the spec (it lists only aggregate sizes), so padding is placed after
the modelled fields; every aggregate size and growth rule follows the
spec's tables.
-/

/-- Reduction of `Except` bind on a success value (do-notation helper). -/
theorem exc_ok_bind {ε α β : Type} (a : α) (f : α → Except ε β) :
    (Except.ok a : Except ε α) >>= f = f a := rfl

/-- Reduction of `Except` bind on an error value (do-notation helper). -/
theorem exc_error_bind {ε α β : Type} (e : ε) (f : α → Except ε β) :
    (Except.error e : Except ε α) >>= f = Except.error e := rfl

/-- Reduction of `pure` in the `Except` monad (do-notation helper). -/
theorem exc_pure {ε α : Type} (a : α) : (pure a : Except ε α) = Except.ok a := rfl

/-- Modelled from the spec: `EncodingError` is "raised when a field value
cannot fit its fixed-width slot".  The payload records the slot width in
bytes and the offending value. -/
inductive EncodingError : Type where
  | fieldOverflow (width : Nat) (value : Nat)
deriving DecidableEq, Repr

/-- Big-endian byte string of width `w` for the value `v` (network byte
order, as used by the OpenFlow wire format the spec reconstructs). -/
def beBytes : Nat → Nat → List Nat
  | 0, _ => []
  | w+1, v => (v / 2^(8*w)) % 256 :: beBytes w (v % 2^(8*w))

theorem beBytes_length (w v : Nat) : (beBytes w v).length = w := by
  induction w generalizing v with
  | zero => rfl
  | succ w ih => simp [beBytes, ih]

theorem beBytes_inj {w v1 v2 : Nat} (h1 : v1 < 2^(8*w)) (h2 : v2 < 2^(8*w))
    (h : beBytes w v1 = beBytes w v2) : v1 = v2 := by
  induction w generalizing v1 v2 with
  | zero => simp [pow_zero] at h1 h2; omega
  | succ w ih =>
    simp only [beBytes, List.cons.injEq] at h
    obtain ⟨hhead, htail⟩ := h
    have hB : 0 < 2^(8*w) := Nat.pos_pow_of_pos _ (by omega)
    have hr := ih (Nat.mod_lt v1 hB) (Nat.mod_lt v2 hB) htail
    have hp : 2^(8*(w+1)) = 2^(8*w) * 256 := by
      rw [show 8*(w+1) = 8*w + 8 by ring, pow_add]; norm_num
    have hd1 : v1 / 2^(8*w) < 256 := Nat.div_lt_of_lt_mul (by omega)
    have hd2 : v2 / 2^(8*w) < 256 := Nat.div_lt_of_lt_mul (by omega)
    rw [Nat.mod_eq_of_lt hd1, Nat.mod_eq_of_lt hd2] at hhead
    have e1 := Nat.div_add_mod v1 (2^(8*w))
    have e2 := Nat.div_add_mod v2 (2^(8*w))
    rw [← e1, ← e2, hhead, hr]

/-- Modelled from the spec: packing one fixed-width field.  A value that
fits the `w`-byte slot is written big-endian; a value that does not fit
fails with `EncodingError` ("raised when a field value cannot fit its
fixed-width slot"). -/
def packField (w v : Nat) : Except EncodingError (List Nat) :=
  if v < 2^(8*w) then Except.ok (beBytes w v)
  else Except.error (EncodingError.fieldOverflow w v)

theorem packField_ok {w v : Nat} (h : v < 2^(8*w)) :
    packField w v = Except.ok (beBytes w v) := by
  simp [packField, h]

theorem packField_error {w v : Nat} (h : 2^(8*w) ≤ v) :
    packField w v = Except.error (EncodingError.fieldOverflow w v) := by
  simp [packField, Nat.not_lt.mpr h]

/-- Wildcard-mask bit for "ignore input port" (the bit the test clears
with `match.wildcards &= ~OFPFW_IN_PORT`). -/
def OFPFW_IN_PORT : Nat := 1

/-- All wildcard bits of the 32-bit wildcard mask set ("everything is a
don't-care"), the mask of a default-constructed match. -/
def OFPFW_ALL : Nat := 2^32 - 1

/-- Modelled from the spec: the `ofp_match` value of the unseen
`oftest.message` library — "a wildcard bitmask (which fields are
don't-care) plus a fixed ordered set of typed fields (input port,
addresses, ports, etc.)". -/
structure ofp_match : Type where
  wildcards : Nat
  in_port : Nat
  dl_src : Nat
  dl_dst : Nat
  tp_src : Nat
  tp_dst : Nat
deriving DecidableEq, Repr

/-- A default-constructed `ofp_match()`: every field wildcarded, all
field values zero. -/
def ofp_match.new : ofp_match :=
  { wildcards := OFPFW_ALL, in_port := 0, dl_src := 0, dl_dst := 0,
    tp_src := 0, tp_dst := 0 }

/-- The test's `match.wildcards &= ~bit`: clear one wildcard bit of the
32-bit mask (complement taken inside the 32-bit mask width). -/
def ofp_match.clear_wildcards (m : ofp_match) (bit : Nat) : ofp_match :=
  { m with wildcards := m.wildcards &&& (OFPFW_ALL ^^^ bit) }

/-- Every field of the match fits its fixed-width slot. -/
abbrev ofp_match.valid (m : ofp_match) : Prop :=
  m.wildcards < 2^32 ∧ m.in_port < 2^32 ∧ m.dl_src < 2^48 ∧
    m.dl_dst < 2^48 ∧ m.tp_src < 2^16 ∧ m.tp_dst < 2^16

/-- The 88-byte wire image of a match whose fields are all in range:
wildcard mask, input port, two 6-byte addresses, two transport ports,
then padding to the fixed 88-byte block size. -/
def ofp_match.bytes (m : ofp_match) : List Nat :=
  beBytes 4 m.wildcards ++ beBytes 4 m.in_port ++ beBytes 6 m.dl_src ++
    beBytes 6 m.dl_dst ++ beBytes 2 m.tp_src ++ beBytes 2 m.tp_dst ++
    List.replicate 64 0

/-- Modelled from the spec: `pack(match) -> bytes`, the Match Encoder.
Each field is packed into its fixed-width slot (failing with
`EncodingError` if out of range) and the block is padded to 88 bytes. -/
def ofp_match.pack (m : ofp_match) : Except EncodingError (List Nat) := do
  let wb ← packField 4 m.wildcards
  let ipb ← packField 4 m.in_port
  let sb ← packField 6 m.dl_src
  let db ← packField 6 m.dl_dst
  let tsb ← packField 2 m.tp_src
  let tdb ← packField 2 m.tp_dst
  pure (wb ++ ipb ++ sb ++ db ++ tsb ++ tdb ++ List.replicate 64 0)

theorem match_pack_eq {m : ofp_match} (h : m.valid) :
    m.pack = Except.ok m.bytes := by
  obtain ⟨h1, h2, h3, h4, h5, h6⟩ := h
  rw [ofp_match.pack, packField_ok (by exact_mod_cast h1),
    exc_ok_bind, packField_ok (by exact_mod_cast h2), exc_ok_bind,
    packField_ok (by exact_mod_cast h3), exc_ok_bind,
    packField_ok (by exact_mod_cast h4), exc_ok_bind,
    packField_ok (by exact_mod_cast h5), exc_ok_bind,
    packField_ok (by exact_mod_cast h6), exc_ok_bind, exc_pure]
  rfl

theorem match_bytes_length (m : ofp_match) : m.bytes.length = 88 := by
  simp [ofp_match.bytes, beBytes_length]

/-- Claim C1: for every match value, whatever wildcard bits its mask has
set or cleared (every field in range), `pack` succeeds and returns a
byte string of length exactly 88. -/
theorem C1_match_pack_length (m : ofp_match) (h : m.valid) :
    ∃ bs, m.pack = Except.ok bs ∧ bs.length = 88 :=
  ⟨m.bytes, match_pack_eq h, match_bytes_length m⟩

/-- Witness for C1: the default-constructed match, and the same match
with the input-port wildcard bit cleared, both pack to 88 bytes. -/
theorem C1_match_pack_length_witness :
    (∃ bs, ofp_match.new.pack = Except.ok bs ∧ bs.length = 88) ∧
    (∃ bs, (ofp_match.new.clear_wildcards OFPFW_IN_PORT).pack = Except.ok bs ∧
      bs.length = 88) :=
  ⟨C1_match_pack_length _ (by decide), C1_match_pack_length _ (by decide)⟩

/-- Generic helper: `mapM` over `Except` succeeds with the mapped list
when packing every element succeeds. -/
theorem mapM_ok_of_forall {α β : Type} (l : List α) (f : α → Except EncodingError β)
    (g : α → β) (h : ∀ x ∈ l, f x = Except.ok (g x)) :
    l.mapM f = Except.ok (l.map g) := by
  induction l with
  | nil => rfl
  | cons a t ih =>
    simp only [List.mapM_cons, h a (by simp), exc_ok_bind,
      ih fun x hx => h x (by simp [hx]), List.map_cons, exc_pure]

/-- Wire type tag of the output action. -/
def OFPAT_OUTPUT : Nat := 0

/-- Fixed record size of the output action: the spec's apply-actions
instruction with one output action is 24 bytes, 8 of which are the
instruction header, so the action record is 16 bytes. -/
def ACTION_OUTPUT_LEN : Nat := 16

/-- Modelled from the spec: the `action_set_output_port` value of the
unseen library — an "output port" action holding "a 16-bit port
identifier plus padding to a fixed record size". -/
structure action_set_output_port : Type where
  port : Nat
deriving DecidableEq

/-- A default-constructed `action.action_set_output_port()`. -/
def action_set_output_port.new : action_set_output_port := { port := 0 }

/-- The action is structurally valid: its port fits the 16-bit slot. -/
abbrev action_set_output_port.valid (a : action_set_output_port) : Prop :=
  a.port < 2^16

/-- The 16-byte wire image of an output action: type tag, record
length, 16-bit port, padding. -/
def action_set_output_port.bytes (a : action_set_output_port) : List Nat :=
  beBytes 2 OFPAT_OUTPUT ++ beBytes 2 ACTION_OUTPUT_LEN ++ beBytes 2 a.port ++
    List.replicate 10 0

/-- Modelled from the spec: `pack(action) -> bytes`, the Action Codec —
"a type tag written first, followed by type-specific payload and
padding"; an out-of-range port fails with `EncodingError`. -/
def action_set_output_port.pack (a : action_set_output_port) :
    Except EncodingError (List Nat) := do
  let tb ← packField 2 OFPAT_OUTPUT
  let lb ← packField 2 ACTION_OUTPUT_LEN
  let pb ← packField 2 a.port
  pure (tb ++ lb ++ pb ++ List.replicate 10 0)

theorem action_pack_eq {a : action_set_output_port} (h : a.valid) :
    a.pack = Except.ok a.bytes := by
  rw [action_set_output_port.pack, packField_ok (by norm_num [OFPAT_OUTPUT]),
    exc_ok_bind, packField_ok (by norm_num [ACTION_OUTPUT_LEN]), exc_ok_bind,
    packField_ok (by exact_mod_cast h), exc_ok_bind, exc_pure]
  rfl

theorem action_bytes_length (a : action_set_output_port) :
    a.bytes.length = 16 := by
  simp [action_set_output_port.bytes, beBytes_length]

theorem flatten_action_bytes_length (l : List action_set_output_port) :
    ((l.map action_set_output_port.bytes).flatten).length = 16 * l.length := by
  induction l with
  | nil => rfl
  | cons a t ih =>
    simp only [List.map_cons, List.flatten_cons, List.length_append, ih,
      action_bytes_length, List.length_cons]
    ring

/-- Wire type tag of the apply-actions instruction. -/
def OFPIT_APPLY_ACTIONS : Nat := 4

/-- Modelled from the spec: the `instruction_apply_actions` value of the
unseen library — "a typed, self-length-prefixed container holding an
ordered sequence of actions". -/
structure instruction_apply_actions : Type where
  actions : List action_set_output_port
deriving DecidableEq

/-- A default-constructed `instruction.instruction_apply_actions()`. -/
def instruction_apply_actions.new : instruction_apply_actions := { actions := [] }

/-- Total wire length of the instruction: 8-byte header plus one
16-byte record per action ("length = header size + Σ(action lengths)"). -/
def instruction_apply_actions.len (i : instruction_apply_actions) : Nat :=
  8 + 16 * i.actions.length

/-- The instruction is structurally valid: every contained action is
valid and its total length fits the 16-bit length slot. -/
abbrev instruction_apply_actions.valid (i : instruction_apply_actions) : Prop :=
  (∀ a ∈ i.actions, a.valid) ∧ i.len < 2^16

/-- The wire image of an apply-actions instruction: type tag, total
length, padding, then every action's record in append order. -/
def instruction_apply_actions.bytes (i : instruction_apply_actions) : List Nat :=
  beBytes 2 OFPIT_APPLY_ACTIONS ++ beBytes 2 i.len ++ List.replicate 4 0 ++
    (i.actions.map action_set_output_port.bytes).flatten

/-- Modelled from the spec: `pack(instruction) -> bytes`, the
Instruction Codec — "header holds instruction-type tag and total length
(header + all action bytes)" followed by the packed actions in append
order. -/
def instruction_apply_actions.pack (i : instruction_apply_actions) :
    Except EncodingError (List Nat) := do
  let abodies ← i.actions.mapM action_set_output_port.pack
  let body := abodies.flatten
  let tb ← packField 2 OFPIT_APPLY_ACTIONS
  let lb ← packField 2 (8 + body.length)
  pure (tb ++ lb ++ List.replicate 4 0 ++ body)

theorem instruction_pack_eq {i : instruction_apply_actions}
    (h : i.valid) : i.pack = Except.ok i.bytes := by
  obtain ⟨ha, hl⟩ := h
  have hm : i.actions.mapM action_set_output_port.pack =
      Except.ok (i.actions.map action_set_output_port.bytes) :=
    mapM_ok_of_forall _ _ _ fun a hx => action_pack_eq (ha a hx)
  simp only [instruction_apply_actions.pack, hm, exc_ok_bind,
    flatten_action_bytes_length]
  rw [packField_ok (by norm_num [OFPIT_APPLY_ACTIONS]), exc_ok_bind,
    packField_ok (by simp only [instruction_apply_actions.len] at hl; omega),
    exc_ok_bind, exc_pure]
  simp [instruction_apply_actions.bytes, instruction_apply_actions.len]

theorem instruction_bytes_length (i : instruction_apply_actions) :
    i.bytes.length = i.len := by
  simp only [instruction_apply_actions.bytes, instruction_apply_actions.len,
    List.length_append, beBytes_length, List.length_replicate,
    flatten_action_bytes_length]

theorem flatten_instruction_bytes_length (l : List instruction_apply_actions) :
    ((l.map instruction_apply_actions.bytes).flatten).length =
      (l.map instruction_apply_actions.len).sum := by
  induction l with
  | nil => rfl
  | cons i t ih =>
    simp [List.map_cons, List.flatten_cons, ih,
      instruction_bytes_length]

/-- Modelled from the spec: the `flow_stats_entry` value of the unseen
library — "a fixed-size header (including embedded match) followed by
an ordered sequence of instructions"; the header carries "cookie,
priority, counters, etc.". -/
structure flow_stats_entry : Type where
  priority : Nat
  cookie : Nat
  packet_count : Nat
  byte_count : Nat
  match_ : ofp_match
  instructions : List instruction_apply_actions
deriving DecidableEq

/-- A default-constructed `flow_stats_entry()`: zero counters, default
match, no instructions. -/
def flow_stats_entry.new : flow_stats_entry :=
  { priority := 0, cookie := 0, packet_count := 0, byte_count := 0,
    match_ := ofp_match.new, instructions := [] }

/-- Total wire length of the entry's instruction list. -/
def flow_stats_entry.instLens (e : flow_stats_entry) : Nat :=
  (e.instructions.map instruction_apply_actions.len).sum

/-- Every field of the entry fits its slot, the match and every
instruction are valid, and the total length fits the length slot. -/
abbrev flow_stats_entry.valid (e : flow_stats_entry) : Prop :=
  e.priority < 2^16 ∧ e.cookie < 2^64 ∧ e.packet_count < 2^64 ∧
    e.byte_count < 2^64 ∧ e.match_.valid ∧
    (∀ i ∈ e.instructions, i.valid) ∧ 136 + e.instLens < 2^16

/-- The wire image of a flow-stats entry: 2-byte total length, header
fields and padding to the fixed 48-byte header, the embedded 88-byte
match, then every instruction's bytes in append order. -/
def flow_stats_entry.bytes (e : flow_stats_entry) : List Nat :=
  beBytes 2 (136 + e.instLens) ++ beBytes 2 e.priority ++ beBytes 8 e.cookie ++
    beBytes 8 e.packet_count ++ beBytes 8 e.byte_count ++ List.replicate 20 0 ++
    e.match_.bytes ++ (e.instructions.map instruction_apply_actions.bytes).flatten

/-- Modelled from the spec: `pack(entry) -> bytes`, the Flow-Entry
Codec — "fixed header fields (cookie, priority, counters, etc.) plus
embedded match plus trailing instruction list, each instruction packed
in append order and concatenated". -/
def flow_stats_entry.pack (e : flow_stats_entry) :
    Except EncodingError (List Nat) := do
  let mb ← e.match_.pack
  let ibodies ← e.instructions.mapM instruction_apply_actions.pack
  let body := ibodies.flatten
  let lb ← packField 2 (48 + mb.length + body.length)
  let prb ← packField 2 e.priority
  let cb ← packField 8 e.cookie
  let pcb ← packField 8 e.packet_count
  let bcb ← packField 8 e.byte_count
  pure (lb ++ prb ++ cb ++ pcb ++ bcb ++ List.replicate 20 0 ++ mb ++ body)

theorem entry_pack_eq {e : flow_stats_entry} (h : e.valid) :
    e.pack = Except.ok e.bytes := by
  obtain ⟨h1, h2, h3, h4, hm, hins, hlen⟩ := h
  have hmp := match_pack_eq hm
  have hi : e.instructions.mapM instruction_apply_actions.pack =
      Except.ok (e.instructions.map instruction_apply_actions.bytes) :=
    mapM_ok_of_forall _ _ _ fun i hx => instruction_pack_eq (hins i hx)
  simp only [flow_stats_entry.instLens] at hlen
  simp only [flow_stats_entry.pack, hmp, hi, exc_ok_bind,
    match_bytes_length, flatten_instruction_bytes_length]
  rw [packField_ok (by omega), exc_ok_bind, packField_ok (by exact_mod_cast h1),
    exc_ok_bind, packField_ok (by exact_mod_cast h2), exc_ok_bind,
    packField_ok (by exact_mod_cast h3), exc_ok_bind,
    packField_ok (by exact_mod_cast h4), exc_ok_bind, exc_pure]
  simp only [flow_stats_entry.bytes, flow_stats_entry.instLens]

theorem entry_bytes_length (e : flow_stats_entry) :
    e.bytes.length = 136 + e.instLens := by
  simp only [flow_stats_entry.bytes, List.length_append, beBytes_length,
    List.length_replicate, match_bytes_length,
    flatten_instruction_bytes_length, flow_stats_entry.instLens]

/-- Stats-type tag of a flow-stats reply. -/
def OFPST_FLOW : Nat := 1

/-- Modelled from the spec: the `flow_stats_reply` value of the unseen
library — "a fixed 12-byte header followed by an ordered sequence of
flow-stats entries". -/
structure flow_stats_reply : Type where
  flags : Nat
  stats : List flow_stats_entry
deriving DecidableEq

/-- A default-constructed `flow_stats_reply()`: no entries. -/
def flow_stats_reply.new : flow_stats_reply := { flags := 0, stats := [] }

/-- The test's `rep.stats.append(msg)`: append one flow entry to the
reply's stats list. -/
def flow_stats_reply.stats_append (r : flow_stats_reply) (e : flow_stats_entry) :
    flow_stats_reply :=
  { r with stats := r.stats ++ [e] }

/-- The reply's flags fit their slot and every entry is valid. -/
abbrev flow_stats_reply.valid (r : flow_stats_reply) : Prop :=
  r.flags < 2^16 ∧ ∀ s ∈ r.stats, s.valid

/-- The wire image of a flow-stats reply: stats type, flags, padding to
the fixed 12-byte header, then every entry's bytes in append order. -/
def flow_stats_reply.bytes (r : flow_stats_reply) : List Nat :=
  beBytes 2 OFPST_FLOW ++ beBytes 2 r.flags ++ List.replicate 8 0 ++
    (r.stats.map flow_stats_entry.bytes).flatten

/-- Modelled from the spec: `pack(reply) -> bytes`, the
Flow-Stats-Reply Codec — "fixed 12-byte reply header followed by
concatenated entry encodings in append order". -/
def flow_stats_reply.pack (r : flow_stats_reply) :
    Except EncodingError (List Nat) := do
  let tb ← packField 2 OFPST_FLOW
  let fb ← packField 2 r.flags
  let ebodies ← r.stats.mapM flow_stats_entry.pack
  pure (tb ++ fb ++ List.replicate 8 0 ++ ebodies.flatten)

theorem reply_pack_eq {r : flow_stats_reply} (h : r.valid) :
    r.pack = Except.ok r.bytes := by
  obtain ⟨hf, hs⟩ := h
  have he : r.stats.mapM flow_stats_entry.pack =
      Except.ok (r.stats.map flow_stats_entry.bytes) :=
    mapM_ok_of_forall _ _ _ fun s hx => entry_pack_eq (hs s hx)
  simp only [flow_stats_reply.pack, he, exc_ok_bind]
  rw [packField_ok (by norm_num [OFPST_FLOW]), exc_ok_bind,
    packField_ok (by exact_mod_cast hf), exc_ok_bind, exc_pure]
  rfl

theorem reply_bytes_length (r : flow_stats_reply) :
    r.bytes.length = 12 + (r.stats.map fun e => e.bytes.length).sum := by
  have hml : (r.stats.map flow_stats_entry.bytes).map List.length =
      r.stats.map fun e => e.bytes.length := by
    rw [List.map_map]; rfl
  simp only [flow_stats_reply.bytes, List.length_append, beBytes_length,
    List.length_replicate, List.length_flatten, hml]

/-- The test's `inst.actions.add(act)`: the container `add` on the
action list.  Modelled from the spec: returns the updated container and
a boolean, "failure on null/malformed action" — the only structural
defect a typed output action can have is a port that does not fit its
16-bit slot. -/
def instruction_apply_actions.actions_add (i : instruction_apply_actions)
    (oa : Option action_set_output_port) : instruction_apply_actions × Bool :=
  match oa with
  | none => (i, false)
  | some a =>
    if a.port < 2^16 then ({ i with actions := i.actions ++ [a] }, true)
    else (i, false)

/-- Boolean structural-validity check of an instruction, used by the
entry-level `add`. -/
def instruction_apply_actions.validb (i : instruction_apply_actions) : Bool :=
  (i.actions.all fun a => decide (a.port < 2^16)) && decide (i.len < 2^16)

/-- The test's `msg.instructions.add(inst)`: the container `add` on the
entry's instruction list, returning the updated entry and a boolean. -/
def flow_stats_entry.instructions_add (e : flow_stats_entry)
    (oi : Option instruction_apply_actions) : flow_stats_entry × Bool :=
  match oi with
  | none => (e, false)
  | some i =>
    if i.validb then ({ e with instructions := e.instructions ++ [i] }, true)
    else (e, false)

/-- Claim C2: a flow-stats entry with zero instructions (in particular a
freshly constructed one with any valid match assigned) packs to a byte
string of length exactly 136. -/
theorem C2_empty_entry_pack_length (e : flow_stats_entry) (h : e.valid)
    (hi : e.instructions = []) :
    ∃ bs, e.pack = Except.ok bs ∧ bs.length = 136 := by
  refine ⟨e.bytes, entry_pack_eq h, ?_⟩
  rw [entry_bytes_length, flow_stats_entry.instLens, hi]
  rfl

/-- Witness for C2: the fresh entry of the test, with the
cleared-wildcard match assigned, packs to 136 bytes. -/
theorem C2_empty_entry_pack_length_witness :
    ∃ bs, ({ flow_stats_entry.new with
        match_ := ofp_match.new.clear_wildcards OFPFW_IN_PORT } :
      flow_stats_entry).pack = Except.ok bs ∧ bs.length = 136 :=
  C2_empty_entry_pack_length _ (by decide) rfl

/-- Claim C3: adding one apply-actions instruction holding one
output-port action (port 3) to an entry with zero instructions makes it
pack to exactly 160 bytes, the 136-byte empty-entry length plus the
instruction's own 24-byte packed length; both `add` calls succeed. -/
theorem C3_entry_instruction_growth (e : flow_stats_entry) (h : e.valid)
    (hi : e.instructions = []) :
    (instruction_apply_actions.new.actions_add
        (some { action_set_output_port.new with port := 3 })).2 = true ∧
    (e.instructions_add (some (instruction_apply_actions.new.actions_add
        (some { action_set_output_port.new with port := 3 })).1)).2 = true ∧
    (∃ ibs, (instruction_apply_actions.new.actions_add
        (some { action_set_output_port.new with port := 3 })).1.pack =
          Except.ok ibs ∧ ibs.length = 24) ∧
    (∃ bs, (e.instructions_add (some (instruction_apply_actions.new.actions_add
        (some { action_set_output_port.new with port := 3 })).1)).1.pack =
          Except.ok bs ∧ bs.length = 160) := by
  obtain ⟨h1, h2, h3, h4, hm, -, -⟩ := h
  have hadd : instruction_apply_actions.new.actions_add
      (some { action_set_output_port.new with port := 3 }) =
      ({ actions := [{ port := 3 }] }, true) := by decide
  have hvb : ({ actions := [{ port := 3 }] } : instruction_apply_actions).validb =
      true := by decide
  have hpair : e.instructions_add
      (some ({ actions := [{ port := 3 }] } : instruction_apply_actions)) =
      ({ e with instructions :=
          e.instructions ++ [{ actions := [{ port := 3 }] }] }, true) := by
    simp [flow_stats_entry.instructions_add, hvb]
  have hiv : ({ actions := [{ port := 3 }] } : instruction_apply_actions).valid :=
    by decide
  have hv : ({ e with instructions :=
      [({ actions := [{ port := 3 }] } : instruction_apply_actions)] } :
      flow_stats_entry).valid := by
    refine ⟨h1, h2, h3, h4, hm, ?_, ?_⟩
    · intro i hx
      simp only [List.mem_singleton] at hx
      subst hx
      decide
    · simp [flow_stats_entry.instLens, instruction_apply_actions.len]
  rw [hadd, hpair, hi, List.nil_append]
  refine ⟨rfl, rfl, ?_, ?_⟩
  · refine ⟨_, instruction_pack_eq hiv, ?_⟩
    rw [instruction_bytes_length]
    rfl
  · refine ⟨_, entry_pack_eq hv, ?_⟩
    rw [entry_bytes_length]
    simp [flow_stats_entry.instLens, instruction_apply_actions.len]

/-- Witness for C3: on the test's fresh entry (cleared-wildcard match
assigned, zero instructions) both adds succeed, the instruction packs
to 24 bytes and the grown entry to 160 bytes. -/
theorem C3_entry_instruction_growth_witness :
    (instruction_apply_actions.new.actions_add
        (some { action_set_output_port.new with port := 3 })).2 = true ∧
    (({ flow_stats_entry.new with
        match_ := ofp_match.new.clear_wildcards OFPFW_IN_PORT } :
      flow_stats_entry).instructions_add
        (some (instruction_apply_actions.new.actions_add
          (some { action_set_output_port.new with port := 3 })).1)).2 = true ∧
    (∃ ibs, (instruction_apply_actions.new.actions_add
        (some { action_set_output_port.new with port := 3 })).1.pack =
          Except.ok ibs ∧ ibs.length = 24) ∧
    (∃ bs, (({ flow_stats_entry.new with
        match_ := ofp_match.new.clear_wildcards OFPFW_IN_PORT } :
      flow_stats_entry).instructions_add
        (some (instruction_apply_actions.new.actions_add
          (some { action_set_output_port.new with port := 3 })).1)).1.pack =
          Except.ok bs ∧ bs.length = 160) :=
  C3_entry_instruction_growth
    { flow_stats_entry.new with
      match_ := ofp_match.new.clear_wildcards OFPFW_IN_PORT } (by decide) rfl

/-- Claim C4: a flow-stats reply packs to 12 bytes plus the sum of the
packed lengths of its appended entries; with an empty stats list the
length is exactly 12. -/
theorem C4_reply_pack_length (r : flow_stats_reply) (h : r.valid) :
    ∃ bs, r.pack = Except.ok bs ∧
      bs.length = 12 + (r.stats.map fun e => e.bytes.length).sum ∧
      (r.stats = [] → bs.length = 12) := by
  refine ⟨r.bytes, reply_pack_eq h, reply_bytes_length r, ?_⟩
  intro hs
  rw [reply_bytes_length, hs]
  rfl

/-- Witness for C4: the empty reply packs to 12 bytes, and appending
the 160-byte entry of the test yields 172 bytes. -/
theorem C4_reply_pack_length_witness :
    (∃ bs, flow_stats_reply.new.pack = Except.ok bs ∧ bs.length = 12) ∧
    (∃ bs, (flow_stats_reply.new.stats_append
        { flow_stats_entry.new with
          match_ := ofp_match.new.clear_wildcards OFPFW_IN_PORT,
          instructions := [{ actions := [{ port := 3 }] }] }).pack =
      Except.ok bs ∧ bs.length = 172) := by
  constructor
  · obtain ⟨bs, hb, -, h12⟩ := C4_reply_pack_length flow_stats_reply.new (by decide)
    exact ⟨bs, hb, h12 rfl⟩
  · obtain ⟨bs, hb, hlen, -⟩ := C4_reply_pack_length
      (flow_stats_reply.new.stats_append
        { flow_stats_entry.new with
          match_ := ofp_match.new.clear_wildcards OFPFW_IN_PORT,
          instructions := [{ actions := [{ port := 3 }] }] }) (by decide)
    refine ⟨bs, hb, ?_⟩
    rw [hlen]
    simp [flow_stats_reply.stats_append, flow_stats_reply.new,
      entry_bytes_length, flow_stats_entry.instLens,
      instruction_apply_actions.len]

theorem instruction_apply_actions.validb_eq (i : instruction_apply_actions) :
    i.validb = true ↔ i.valid := by
  simp [instruction_apply_actions.validb, instruction_apply_actions.valid,
    List.all_eq_true, action_set_output_port.valid]

/-- Claim C5: `add` on the action container and on the instruction
container returns a boolean rather than raising: `false` (container
unchanged) for a null or structurally invalid element, `true` (element
appended) for a structurally valid one. -/
theorem C5_add_returns_bool :
    (∀ i : instruction_apply_actions, i.actions_add none = (i, false)) ∧
    (∀ (i : instruction_apply_actions) (a : action_set_output_port), a.valid →
      i.actions_add (some a) = ({ i with actions := i.actions ++ [a] }, true)) ∧
    (∀ (i : instruction_apply_actions) (a : action_set_output_port), ¬a.valid →
      i.actions_add (some a) = (i, false)) ∧
    (∀ e : flow_stats_entry, e.instructions_add none = (e, false)) ∧
    (∀ (e : flow_stats_entry) (i : instruction_apply_actions), i.valid →
      e.instructions_add (some i) =
        ({ e with instructions := e.instructions ++ [i] }, true)) ∧
    (∀ (e : flow_stats_entry) (i : instruction_apply_actions), ¬i.valid →
      e.instructions_add (some i) = (e, false)) := by
  refine ⟨fun i => rfl, ?_, ?_, fun e => rfl, ?_, ?_⟩
  · intro i a ha
    have ha' : a.port < 65536 := ha
    simp [instruction_apply_actions.actions_add, ha']
  · intro i a ha
    have ha' : ¬a.port < 65536 := fun hc => ha hc
    simp [instruction_apply_actions.actions_add, ha']
  · intro e i hv
    simp [flow_stats_entry.instructions_add,
      (instruction_apply_actions.validb_eq i).mpr hv]
  · intro e i hv
    cases hB : i.validb with
    | false => simp [flow_stats_entry.instructions_add, hB]
    | true => exact absurd ((instruction_apply_actions.validb_eq i).mp hB) hv

/-- Witness for C5: concrete adds — a null action and a null
instruction are rejected, an out-of-range action and an invalid
instruction are rejected, and the test's valid action and instruction
are accepted with the container updated. -/
theorem C5_add_returns_bool_witness :
    instruction_apply_actions.new.actions_add none =
      (instruction_apply_actions.new, false) ∧
    instruction_apply_actions.new.actions_add (some { port := 3 }) =
      ({ actions := [{ port := 3 }] }, true) ∧
    instruction_apply_actions.new.actions_add (some { port := 2^16 }) =
      (instruction_apply_actions.new, false) ∧
    flow_stats_entry.new.instructions_add none = (flow_stats_entry.new, false) ∧
    flow_stats_entry.new.instructions_add (some { actions := [{ port := 3 }] }) =
      ({ flow_stats_entry.new with
        instructions := [{ actions := [{ port := 3 }] }] }, true) ∧
    flow_stats_entry.new.instructions_add
        (some { actions := [{ port := 2^16 }] }) =
      (flow_stats_entry.new, false) := by
  refine ⟨C5_add_returns_bool.1 _, ?_, ?_, C5_add_returns_bool.2.2.2.1 _, ?_, ?_⟩
  · exact C5_add_returns_bool.2.1 _ _ (by decide)
  · exact C5_add_returns_bool.2.2.1 _ _ (by decide)
  · exact C5_add_returns_bool.2.2.2.2.1 _ _ (by decide)
  · exact C5_add_returns_bool.2.2.2.2.2 _ _ (by decide)

/-- Claim C6: a field value that does not fit its fixed-width slot
makes `pack` fail with `EncodingError` (an output action whose port is
outside the 16-bit range, a match whose wildcard mask is outside the
32-bit range); for in-range fields `pack` succeeds. -/
theorem C6_encoding_error (a : action_set_output_port) (m : ofp_match) :
    (2^16 ≤ a.port →
      a.pack = Except.error (EncodingError.fieldOverflow 2 a.port)) ∧
    (a.port < 2^16 → ∃ bs, a.pack = Except.ok bs) ∧
    (2^32 ≤ m.wildcards →
      m.pack = Except.error (EncodingError.fieldOverflow 4 m.wildcards)) ∧
    (m.valid → ∃ bs, m.pack = Except.ok bs) := by
  refine ⟨?_, ?_, ?_, ?_⟩
  · intro h
    rw [action_set_output_port.pack, packField_ok (by norm_num [OFPAT_OUTPUT]),
      exc_ok_bind, packField_ok (by norm_num [ACTION_OUTPUT_LEN]), exc_ok_bind,
      packField_error (by exact_mod_cast h), exc_error_bind]
  · intro h
    exact ⟨a.bytes, action_pack_eq h⟩
  · intro h
    rw [ofp_match.pack, packField_error (by exact_mod_cast h), exc_error_bind]
  · intro h
    exact ⟨m.bytes, match_pack_eq h⟩

/-- Witness for C6: packing an action with port 70000 (out of 16-bit
range) fails with `EncodingError`, the test's action with port 3 packs;
a match with a 2^32 wildcard mask fails, the default match packs. -/
theorem C6_encoding_error_witness :
    (({ port := 70000 } : action_set_output_port).pack =
      Except.error (EncodingError.fieldOverflow 2 70000)) ∧
    (∃ bs, ({ port := 3 } : action_set_output_port).pack = Except.ok bs) ∧
    (({ ofp_match.new with wildcards := 2^32 }).pack =
      Except.error (EncodingError.fieldOverflow 4 (2^32))) ∧
    (∃ bs, ofp_match.new.pack = Except.ok bs) :=
  ⟨(C6_encoding_error { port := 70000 } ofp_match.new).1 (by decide),
   (C6_encoding_error { port := 3 } ofp_match.new).2.1 (by decide),
   (C6_encoding_error { port := 3 } { ofp_match.new with wildcards := 2^32 }).2.2.1
     (by decide),
   (C6_encoding_error { port := 3 } ofp_match.new).2.2.2 (by decide)⟩

/-- Claim C7: packing is a pure, deterministic function of the packed
value — packing the same unmutated value twice yields byte-identical
output for every match, action, instruction, entry and reply. -/
theorem C7_pack_deterministic :
    (∀ m : ofp_match, m.pack = m.pack) ∧
    (∀ a : action_set_output_port, a.pack = a.pack) ∧
    (∀ i : instruction_apply_actions, i.pack = i.pack) ∧
    (∀ e : flow_stats_entry, e.pack = e.pack) ∧
    (∀ r : flow_stats_reply, r.pack = r.pack) :=
  ⟨fun _ => rfl, fun _ => rfl, fun _ => rfl, fun _ => rfl, fun _ => rfl⟩

/-- The fixed 48-byte header region of a packed flow-stats entry
(length field, priority, cookie, counters, padding). -/
def flow_stats_entry.hdr (e : flow_stats_entry) : List Nat :=
  beBytes 2 (136 + e.instLens) ++ beBytes 2 e.priority ++ beBytes 8 e.cookie ++
    beBytes 8 e.packet_count ++ beBytes 8 e.byte_count ++ List.replicate 20 0

theorem flow_stats_entry.hdr_length (e : flow_stats_entry) :
    e.hdr.length = 48 := by
  simp [flow_stats_entry.hdr, beBytes_length]

theorem flow_stats_entry.bytes_decomp (e : flow_stats_entry) :
    e.bytes = (e.hdr ++ e.match_.bytes) ++
      (e.instructions.map instruction_apply_actions.bytes).flatten := by
  simp [flow_stats_entry.bytes, flow_stats_entry.hdr, List.append_assoc]

theorem flow_stats_entry.bytes_take48 (e : flow_stats_entry) :
    e.bytes.take 48 = e.hdr := by
  rw [flow_stats_entry.bytes_decomp, List.append_assoc,
    show (48 : Nat) = e.hdr.length from (flow_stats_entry.hdr_length e).symm,
    List.take_left]

theorem flow_stats_entry.bytes_drop136 (e : flow_stats_entry) :
    e.bytes.drop 136 =
      (e.instructions.map instruction_apply_actions.bytes).flatten := by
  rw [flow_stats_entry.bytes_decomp,
    show (136 : Nat) = (e.hdr ++ e.match_.bytes).length from by
      simp [flow_stats_entry.hdr_length, match_bytes_length],
    List.drop_left]

/-- Claim C9: assigning a match to an entry's match field replaces only
the embedded match region: the packed length, the 48 header bytes in
front of the match region and everything after byte 136 are unchanged
(and the length is still 136 with zero instructions). -/
theorem C9_match_assignment_frame (e : flow_stats_entry) (m : ofp_match)
    (h : e.valid) (hm : m.valid) :
    ∃ bs bs', e.pack = Except.ok bs ∧
      ({ e with match_ := m } : flow_stats_entry).pack = Except.ok bs' ∧
      bs'.length = bs.length ∧ bs'.take 48 = bs.take 48 ∧
      bs'.drop 136 = bs.drop 136 ∧
      (e.instructions = [] → bs'.length = 136) := by
  obtain ⟨h1, h2, h3, h4, hm0, h6, h7⟩ := h
  have hv : e.valid := ⟨h1, h2, h3, h4, hm0, h6, h7⟩
  have hv' : ({ e with match_ := m } : flow_stats_entry).valid :=
    ⟨h1, h2, h3, h4, hm, h6, h7⟩
  refine ⟨e.bytes, _, entry_pack_eq hv, entry_pack_eq hv',
    ?_, ?_, ?_, ?_⟩
  · rw [entry_bytes_length, entry_bytes_length]
    exact rfl
  · rw [flow_stats_entry.bytes_take48, flow_stats_entry.bytes_take48]
    rfl
  · rw [flow_stats_entry.bytes_drop136, flow_stats_entry.bytes_drop136]
  · intro hi
    rw [entry_bytes_length]
    simp [flow_stats_entry.instLens, hi]

/-- Witness for C9: assigning the cleared-wildcard match to a fresh
entry keeps the packed length at 136 and leaves the header and the
(empty) instruction region untouched. -/
theorem C9_match_assignment_frame_witness :
    ∃ bs bs', flow_stats_entry.new.pack = Except.ok bs ∧
      ({ flow_stats_entry.new with
          match_ := ofp_match.new.clear_wildcards OFPFW_IN_PORT } :
        flow_stats_entry).pack = Except.ok bs' ∧
      bs'.length = bs.length ∧ bs'.take 48 = bs.take 48 ∧
      bs'.drop 136 = bs.drop 136 ∧
      (flow_stats_entry.new.instructions = [] → bs'.length = 136) :=
  C9_match_assignment_frame flow_stats_entry.new
    (ofp_match.new.clear_wildcards OFPFW_IN_PORT) (by decide) (by decide)

/-- Claim C10: a successful `add` is effective — whenever
`actions.add(action)` or `instructions.add(instruction)` returns
`true`, the element is stored at the end of the container and the
enclosing value's packed length grows by exactly the element's own
packed length. -/
theorem C10_add_effective :
    (∀ (i i' : instruction_apply_actions) (a : action_set_output_port),
      i.actions_add (some a) = (i', true) →
      (∀ b ∈ i.actions, b.valid) → i.len + 16 < 2^16 →
      i' = { i with actions := i.actions ++ [a] } ∧
      ∃ bs bs' abs2, i.pack = Except.ok bs ∧ i'.pack = Except.ok bs' ∧
        a.pack = Except.ok abs2 ∧ abs2.length = 16 ∧
        bs'.length = bs.length + abs2.length) ∧
    (∀ (e e' : flow_stats_entry) (i : instruction_apply_actions),
      e.instructions_add (some i) = (e', true) →
      e.valid → 136 + e.instLens + i.len < 2^16 →
      e' = { e with instructions := e.instructions ++ [i] } ∧
      ∃ bs bs' ibs, e.pack = Except.ok bs ∧ e'.pack = Except.ok bs' ∧
        i.pack = Except.ok ibs ∧ bs'.length = bs.length + ibs.length) := by
  constructor
  · intro i i' a hadd hb hlen
    by_cases hp : a.port < 2^16
    · simp only [instruction_apply_actions.actions_add, if_pos hp,
        Prod.mk.injEq] at hadd
      obtain ⟨hi', -⟩ := hadd
      subst hi'
      refine ⟨rfl, ?_⟩
      have hvi : i.valid := ⟨hb, by omega⟩
      have hvi' : ({ i with actions := i.actions ++ [a] } :
          instruction_apply_actions).valid := by
        constructor
        · intro b hbmem
          rcases List.mem_append.mp hbmem with hmem | hmem
          · exact hb b hmem
          · rw [List.mem_singleton.mp hmem]; exact hp
        · show 8 + 16 * (i.actions ++ [a]).length < 2^16
          rw [List.length_append]
          simp only [instruction_apply_actions.len] at hlen
          simp only [List.length_cons, List.length_nil]
          omega
      refine ⟨i.bytes, _, a.bytes, instruction_pack_eq hvi,
        instruction_pack_eq hvi',
        action_pack_eq hp,
        action_bytes_length a, ?_⟩
      rw [instruction_bytes_length,
        instruction_bytes_length,
        action_bytes_length]
      show 8 + 16 * (i.actions ++ [a]).length = i.len + 16
      rw [List.length_append]
      simp only [instruction_apply_actions.len, List.length_cons,
        List.length_nil]
      ring
    · have hp' : ¬a.port < 65536 := hp
      simp [instruction_apply_actions.actions_add, hp'] at hadd
  · intro e e' i hadd hv hlen
    cases hvb : i.validb with
    | false => simp [flow_stats_entry.instructions_add, hvb] at hadd
    | true =>
      have hvi : i.valid := (instruction_apply_actions.validb_eq i).mp hvb
      simp only [flow_stats_entry.instructions_add, hvb, if_true,
        Prod.mk.injEq] at hadd
      obtain ⟨he', -⟩ := hadd
      subst he'
      refine ⟨rfl, ?_⟩
      obtain ⟨h1, h2, h3, h4, hm, h6, h7⟩ := hv
      have hIL : ({ e with instructions := e.instructions ++ [i] } :
          flow_stats_entry).instLens = e.instLens + i.len := by
        show ((e.instructions ++ [i]).map instruction_apply_actions.len).sum =
          e.instLens + i.len
        rw [List.map_append, List.sum_append]
        simp [flow_stats_entry.instLens]
      have hv' : ({ e with instructions := e.instructions ++ [i] } :
          flow_stats_entry).valid := by
        refine ⟨h1, h2, h3, h4, hm, ?_, ?_⟩
        · intro j hj
          rcases List.mem_append.mp hj with hmem | hmem
          · exact h6 j hmem
          · rw [List.mem_singleton.mp hmem]; exact hvi
        · rw [hIL]; omega
      refine ⟨e.bytes, _, i.bytes,
        entry_pack_eq ⟨h1, h2, h3, h4, hm, h6, h7⟩,
        entry_pack_eq hv', instruction_pack_eq hvi, ?_⟩
      rw [entry_bytes_length, entry_bytes_length,
        instruction_bytes_length, hIL]
      omega

/-- Witness for C10: the test's two successful adds — the output-port
action into a fresh instruction (packed length 8 to 24, the action's 16
bytes) and that instruction into a fresh entry (136 to 160, the
instruction's 24 bytes). -/
theorem C10_add_effective_witness :
    (({ actions := [{ port := 3 }] } : instruction_apply_actions) =
      { instruction_apply_actions.new with
        actions := instruction_apply_actions.new.actions ++ [{ port := 3 }] } ∧
      ∃ bs bs' abs2, instruction_apply_actions.new.pack = Except.ok bs ∧
        ({ actions := [{ port := 3 }] } : instruction_apply_actions).pack =
          Except.ok bs' ∧
        ({ port := 3 } : action_set_output_port).pack = Except.ok abs2 ∧
        abs2.length = 16 ∧ bs'.length = bs.length + abs2.length) ∧
    (({ flow_stats_entry.new with
        instructions := [{ actions := [{ port := 3 }] }] } : flow_stats_entry) =
      { flow_stats_entry.new with
        instructions := flow_stats_entry.new.instructions ++
          [{ actions := [{ port := 3 }] }] } ∧
      ∃ bs bs' ibs, flow_stats_entry.new.pack = Except.ok bs ∧
        ({ flow_stats_entry.new with
          instructions := [{ actions := [{ port := 3 }] }] } :
            flow_stats_entry).pack = Except.ok bs' ∧
        ({ actions := [{ port := 3 }] } : instruction_apply_actions).pack =
          Except.ok ibs ∧
        bs'.length = bs.length + ibs.length) :=
  ⟨C10_add_effective.1 instruction_apply_actions.new
      { actions := [{ port := 3 }] } { port := 3 } (by decide) (by decide)
      (by decide),
   C10_add_effective.2 flow_stats_entry.new
      { flow_stats_entry.new with
        instructions := [{ actions := [{ port := 3 }] }] }
      { actions := [{ port := 3 }] } (by decide) (by decide) (by decide)⟩

/-- Two equal concatenations agree on any initial segment contained in
both left parts. -/
theorem take_eq_of_append_eq {X1 R1 X2 R2 : List Nat} (n : Nat)
    (h : X1 ++ R1 = X2 ++ R2) (h1 : n ≤ X1.length) (h2 : n ≤ X2.length) :
    X1.take n = X2.take n := by
  rw [← List.take_append_of_le_length h1, ← List.take_append_of_le_length h2, h]

theorem action_bytes_inj {a b : action_set_output_port}
    (ha : a.valid) (hb : b.valid) (h : a.bytes = b.bytes) : a = b := by
  simp only [action_set_output_port.bytes, List.append_assoc] at h
  have h1 := List.append_cancel_left h
  have h2 := List.append_cancel_left h1
  have h3 := (List.append_inj h2 (by simp [beBytes_length])).1
  have hp := beBytes_inj (show a.port < 2^(8*2) from by exact_mod_cast ha)
    (show b.port < 2^(8*2) from by exact_mod_cast hb) h3
  calc a = ⟨a.port⟩ := rfl
    _ = ⟨b.port⟩ := by rw [hp]
    _ = b := rfl

theorem action_flatten_inj : ∀ {l1 l2 : List action_set_output_port},
    (∀ a ∈ l1, a.valid) → (∀ a ∈ l2, a.valid) →
    (l1.map action_set_output_port.bytes).flatten =
      (l2.map action_set_output_port.bytes).flatten → l1 = l2 := by
  intro l1
  induction l1 with
  | nil =>
    intro l2 _ _ h
    cases l2 with
    | nil => rfl
    | cons b t =>
      exfalso
      have hl := congrArg List.length h
      simp only [List.map_nil, List.flatten_nil, List.length_nil,
        List.map_cons, List.flatten_cons, List.length_append,
        action_bytes_length, flatten_action_bytes_length] at hl
      omega
  | cons a t ih =>
    intro l2 h1 h2 h
    cases l2 with
    | nil =>
      exfalso
      have hl := congrArg List.length h
      simp only [List.map_nil, List.flatten_nil, List.length_nil,
        List.map_cons, List.flatten_cons, List.length_append,
        action_bytes_length, flatten_action_bytes_length] at hl
      omega
    | cons b t2 =>
      simp only [List.map_cons, List.flatten_cons] at h
      obtain ⟨hh, ht⟩ := List.append_inj h
        (by simp [action_bytes_length])
      have hab := action_bytes_inj (h1 a (by simp))
        (h2 b (by simp)) hh
      subst hab
      rw [ih (fun x hx => h1 x (by simp [hx])) (fun x hx => h2 x (by simp [hx]))
        ht]

theorem instruction_apply_actions.bytes_take4 (i : instruction_apply_actions) :
    i.bytes.take 4 = beBytes 2 OFPIT_APPLY_ACTIONS ++ beBytes 2 i.len := by
  have hsplit : i.bytes = (beBytes 2 OFPIT_APPLY_ACTIONS ++ beBytes 2 i.len) ++
      (List.replicate 4 0 ++
        (i.actions.map action_set_output_port.bytes).flatten) := by
    simp [instruction_apply_actions.bytes, List.append_assoc]
  rw [hsplit, show (4 : Nat) =
      (beBytes 2 OFPIT_APPLY_ACTIONS ++ beBytes 2 i.len).length from by
        simp [beBytes_length],
    List.take_left]

theorem instruction_bytes_inj {i j : instruction_apply_actions}
    (hi : i.valid) (hj : j.valid) (h : i.bytes = j.bytes) : i = j := by
  simp only [instruction_apply_actions.bytes, List.append_assoc] at h
  have h1 := List.append_cancel_left h
  obtain ⟨-, h2⟩ := List.append_inj h1 (by simp [beBytes_length])
  have h3 := List.append_cancel_left h2
  have hact := action_flatten_inj hi.1 hj.1 h3
  calc i = ⟨i.actions⟩ := rfl
    _ = ⟨j.actions⟩ := by rw [hact]
    _ = j := rfl

/-- Two valid instructions whose byte images commute under
concatenation are equal (the length field pins down the block
boundary). -/
theorem instruction_bytes_comm {A B : instruction_apply_actions}
    (hA : A.valid) (hB : B.valid)
    (h : A.bytes ++ B.bytes = B.bytes ++ A.bytes) : A = B := by
  have h4 : A.bytes.take 4 = B.bytes.take 4 :=
    take_eq_of_append_eq 4 h
      (by rw [instruction_bytes_length,
        instruction_apply_actions.len]; omega)
      (by rw [instruction_bytes_length,
        instruction_apply_actions.len]; omega)
  rw [instruction_apply_actions.bytes_take4,
    instruction_apply_actions.bytes_take4] at h4
  have h5 := List.append_cancel_left h4
  have hlen := beBytes_inj (show A.len < 2^(8*2) from by exact_mod_cast hA.2)
    (show B.len < 2^(8*2) from by exact_mod_cast hB.2) h5
  have hbl : A.bytes.length = B.bytes.length := by
    rw [instruction_bytes_length,
      instruction_bytes_length, hlen]
  exact instruction_bytes_inj hA hB (List.append_inj h hbl).1

theorem instruction_flatten_inj : ∀ {l1 l2 : List instruction_apply_actions},
    (∀ i ∈ l1, i.valid) → (∀ i ∈ l2, i.valid) →
    (l1.map instruction_apply_actions.bytes).flatten =
      (l2.map instruction_apply_actions.bytes).flatten → l1 = l2 := by
  intro l1
  induction l1 with
  | nil =>
    intro l2 _ _ h
    cases l2 with
    | nil => rfl
    | cons b t =>
      exfalso
      have hl := congrArg List.length h
      simp only [List.map_nil, List.flatten_nil, List.length_nil,
        List.map_cons, List.flatten_cons, List.length_append,
        instruction_bytes_length,
        instruction_apply_actions.len] at hl
      omega
  | cons a t ih =>
    intro l2 h1 h2 h
    cases l2 with
    | nil =>
      exfalso
      have hl := congrArg List.length h
      simp only [List.map_nil, List.flatten_nil, List.length_nil,
        List.map_cons, List.flatten_cons, List.length_append,
        instruction_bytes_length,
        instruction_apply_actions.len] at hl
      omega
    | cons b t2 =>
      simp only [List.map_cons, List.flatten_cons] at h
      have hA := h1 a (by simp)
      have hB := h2 b (by simp)
      have h4 : a.bytes.take 4 = b.bytes.take 4 :=
        take_eq_of_append_eq 4 h
          (by rw [instruction_bytes_length,
            instruction_apply_actions.len]; omega)
          (by rw [instruction_bytes_length,
            instruction_apply_actions.len]; omega)
      rw [instruction_apply_actions.bytes_take4,
        instruction_apply_actions.bytes_take4] at h4
      have h5 := List.append_cancel_left h4
      have hlen := beBytes_inj
        (show a.len < 2^(8*2) from by exact_mod_cast hA.2)
        (show b.len < 2^(8*2) from by exact_mod_cast hB.2) h5
      have hbl : a.bytes.length = b.bytes.length := by
        rw [instruction_bytes_length,
          instruction_bytes_length, hlen]
      obtain ⟨hh, ht⟩ := List.append_inj h hbl
      have hab := instruction_bytes_inj hA hB hh
      subst hab
      rw [ih (fun x hx => h1 x (by simp [hx])) (fun x hx => h2 x (by simp [hx]))
        ht]

theorem match_bytes_inj {m1 m2 : ofp_match} (hv1 : m1.valid)
    (hv2 : m2.valid) (h : m1.bytes = m2.bytes) : m1 = m2 := by
  obtain ⟨a1, a2, a3, a4, a5, a6⟩ := hv1
  obtain ⟨b1, b2, b3, b4, b5, b6⟩ := hv2
  simp only [ofp_match.bytes, List.append_assoc] at h
  obtain ⟨ew, h⟩ := List.append_inj h (by simp [beBytes_length])
  obtain ⟨eip, h⟩ := List.append_inj h (by simp [beBytes_length])
  obtain ⟨eds, h⟩ := List.append_inj h (by simp [beBytes_length])
  obtain ⟨edd, h⟩ := List.append_inj h (by simp [beBytes_length])
  obtain ⟨ets, h⟩ := List.append_inj h (by simp [beBytes_length])
  obtain ⟨etd, -⟩ := List.append_inj h (by simp [beBytes_length])
  have hw := beBytes_inj (show m1.wildcards < 2^(8*4) from by exact_mod_cast a1)
    (by exact_mod_cast b1) ew
  have hip := beBytes_inj (show m1.in_port < 2^(8*4) from by exact_mod_cast a2)
    (by exact_mod_cast b2) eip
  have hds := beBytes_inj (show m1.dl_src < 2^(8*6) from by exact_mod_cast a3)
    (by exact_mod_cast b3) eds
  have hdd := beBytes_inj (show m1.dl_dst < 2^(8*6) from by exact_mod_cast a4)
    (by exact_mod_cast b4) edd
  have hts := beBytes_inj (show m1.tp_src < 2^(8*2) from by exact_mod_cast a5)
    (by exact_mod_cast b5) ets
  have htd := beBytes_inj (show m1.tp_dst < 2^(8*2) from by exact_mod_cast a6)
    (by exact_mod_cast b6) etd
  calc m1 = ⟨m1.wildcards, m1.in_port, m1.dl_src, m1.dl_dst, m1.tp_src,
      m1.tp_dst⟩ := rfl
    _ = ⟨m2.wildcards, m2.in_port, m2.dl_src, m2.dl_dst, m2.tp_src,
      m2.tp_dst⟩ := by rw [hw, hip, hds, hdd, hts, htd]
    _ = m2 := rfl

theorem entry_bytes_inj {e1 e2 : flow_stats_entry} (hv1 : e1.valid)
    (hv2 : e2.valid) (h : e1.bytes = e2.bytes) : e1 = e2 := by
  obtain ⟨a1, a2, a3, a4, am, a6, -⟩ := hv1
  obtain ⟨b1, b2, b3, b4, bm, b6, -⟩ := hv2
  simp only [flow_stats_entry.bytes, List.append_assoc] at h
  obtain ⟨-, h⟩ := List.append_inj h (by simp [beBytes_length])
  obtain ⟨ep, h⟩ := List.append_inj h (by simp [beBytes_length])
  obtain ⟨ec, h⟩ := List.append_inj h (by simp [beBytes_length])
  obtain ⟨epc, h⟩ := List.append_inj h (by simp [beBytes_length])
  obtain ⟨ebc, h⟩ := List.append_inj h (by simp [beBytes_length])
  have h := List.append_cancel_left h
  obtain ⟨em, ef⟩ := List.append_inj h (by simp [match_bytes_length])
  have hp := beBytes_inj (show e1.priority < 2^(8*2) from by exact_mod_cast a1)
    (by exact_mod_cast b1) ep
  have hc := beBytes_inj (show e1.cookie < 2^(8*8) from by exact_mod_cast a2)
    (by exact_mod_cast b2) ec
  have hpc := beBytes_inj
    (show e1.packet_count < 2^(8*8) from by exact_mod_cast a3)
    (by exact_mod_cast b3) epc
  have hbc := beBytes_inj
    (show e1.byte_count < 2^(8*8) from by exact_mod_cast a4)
    (by exact_mod_cast b4) ebc
  have hm := match_bytes_inj am bm em
  have hins := instruction_flatten_inj a6 b6 ef
  calc e1 = ⟨e1.priority, e1.cookie, e1.packet_count, e1.byte_count,
      e1.match_, e1.instructions⟩ := rfl
    _ = ⟨e2.priority, e2.cookie, e2.packet_count, e2.byte_count,
      e2.match_, e2.instructions⟩ := by rw [hp, hc, hpc, hbc, hm, hins]
    _ = e2 := rfl

/-- Take exactly the first block of a concatenation. -/
theorem take_exact {l1 l2 : List Nat} (n : Nat) (h : l1.length = n) :
    (l1 ++ l2).take n = l1 := by
  rw [← h, List.take_left]

/-- Drop exactly the first block of a concatenation. -/
theorem drop_exact {l1 l2 : List Nat} (n : Nat) (h : l1.length = n) :
    (l1 ++ l2).drop n = l2 := by
  rw [← h, List.drop_left]

theorem flow_stats_entry.bytes_take2 (e : flow_stats_entry) :
    e.bytes.take 2 = beBytes 2 (136 + e.instLens) := by
  have hsplit : e.bytes = beBytes 2 (136 + e.instLens) ++
      (beBytes 2 e.priority ++ (beBytes 8 e.cookie ++ (beBytes 8 e.packet_count ++
        (beBytes 8 e.byte_count ++ (List.replicate 20 0 ++ (e.match_.bytes ++
          (e.instructions.map instruction_apply_actions.bytes).flatten)))))) := by
    simp [flow_stats_entry.bytes, List.append_assoc]
  rw [hsplit, take_exact 2 (beBytes_length 2 _)]

/-- Two valid flow-stats entries whose byte images commute under
concatenation are equal (the leading length field pins down the block
boundary). -/
theorem entry_bytes_comm {A B : flow_stats_entry} (hA : A.valid) (hB : B.valid)
    (h : A.bytes ++ B.bytes = B.bytes ++ A.bytes) : A = B := by
  have h2 : A.bytes.take 2 = B.bytes.take 2 :=
    take_eq_of_append_eq 2 h
      (by rw [entry_bytes_length]; omega)
      (by rw [entry_bytes_length]; omega)
  rw [flow_stats_entry.bytes_take2, flow_stats_entry.bytes_take2] at h2
  have hlen := beBytes_inj
    (show 136 + A.instLens < 2^(8*2) from by exact_mod_cast hA.2.2.2.2.2.2)
    (show 136 + B.instLens < 2^(8*2) from by exact_mod_cast hB.2.2.2.2.2.2) h2
  have hbl : A.bytes.length = B.bytes.length := by
    rw [entry_bytes_length, entry_bytes_length]; omega
  exact entry_bytes_inj hA hB (List.append_inj h hbl).1

theorem flow_stats_reply.bytes_drop12 (r : flow_stats_reply) :
    r.bytes.drop 12 = (r.stats.map flow_stats_entry.bytes).flatten := by
  have hsplit : r.bytes = (beBytes 2 OFPST_FLOW ++ beBytes 2 r.flags ++
      List.replicate 8 0) ++ (r.stats.map flow_stats_entry.bytes).flatten := by
    simp [flow_stats_reply.bytes, List.append_assoc]
  rw [hsplit, drop_exact 12 (by simp [beBytes_length])]

/-- Claim C8: appending two distinct elements in order A,B produces a
different byte stream than order B,A, of identical total length —
packing concatenates elements in append order with no deduplication or
reordering.  Stated for two instructions inside an entry and for two
entries inside a reply. -/
theorem C8_order_sensitivity :
    (∀ (e : flow_stats_entry) (A B : instruction_apply_actions),
      ({ e with instructions := [A, B] } : flow_stats_entry).valid → A ≠ B →
      ∃ bs1 bs2,
        ({ e with instructions := [A, B] } : flow_stats_entry).pack =
          Except.ok bs1 ∧
        ({ e with instructions := [B, A] } : flow_stats_entry).pack =
          Except.ok bs2 ∧
        bs1 ≠ bs2 ∧ bs1.length = bs2.length) ∧
    (∀ (r : flow_stats_reply) (A B : flow_stats_entry),
      ({ r with stats := [A, B] } : flow_stats_reply).valid → A ≠ B →
      ∃ bs1 bs2,
        ({ r with stats := [A, B] } : flow_stats_reply).pack = Except.ok bs1 ∧
        ({ r with stats := [B, A] } : flow_stats_reply).pack = Except.ok bs2 ∧
        bs1 ≠ bs2 ∧ bs1.length = bs2.length) := by
  constructor
  · intro e A B hv hne
    obtain ⟨h1, h2, h3, h4, hm, h6, h7⟩ := hv
    have hA : A.valid := h6 A (show A ∈ [A, B] by simp)
    have hB : B.valid := h6 B (show B ∈ [A, B] by simp)
    have hIL : ({ e with instructions := [B, A] } : flow_stats_entry).instLens =
        ({ e with instructions := [A, B] } : flow_stats_entry).instLens := by
      show (List.map instruction_apply_actions.len [B, A]).sum =
        (List.map instruction_apply_actions.len [A, B]).sum
      simp only [List.map_cons, List.map_nil, List.sum_cons, List.sum_nil]
      omega
    have h6' : ∀ i ∈ ({ e with instructions := [B, A] } :
        flow_stats_entry).instructions, i.valid := by
      intro i hi'
      have hi2 : i ∈ [B, A] := hi'
      simp only [List.mem_cons, List.not_mem_nil, or_false] at hi2
      rcases hi2 with rfl | rfl
      · exact hB
      · exact hA
    have hv2 : ({ e with instructions := [B, A] } : flow_stats_entry).valid :=
      ⟨h1, h2, h3, h4, hm, h6', by rw [hIL]; exact h7⟩
    refine ⟨_, _, entry_pack_eq ⟨h1, h2, h3, h4, hm, h6, h7⟩,
      entry_pack_eq hv2, ?_, ?_⟩
    · intro heq
      have hd := congrArg (List.drop 136) heq
      rw [flow_stats_entry.bytes_drop136, flow_stats_entry.bytes_drop136] at hd
      have hd2 : A.bytes ++ (B.bytes ++ ([] : List Nat)) =
          B.bytes ++ (A.bytes ++ []) := hd
      simp only [List.append_nil] at hd2
      exact hne (instruction_bytes_comm hA hB hd2)
    · rw [entry_bytes_length, entry_bytes_length, hIL]
  · intro r A B hv hne
    obtain ⟨hf, hs⟩ := hv
    have hA : A.valid := hs A (show A ∈ [A, B] by simp)
    have hB : B.valid := hs B (show B ∈ [A, B] by simp)
    have hs' : ∀ s ∈ ({ r with stats := [B, A] } : flow_stats_reply).stats,
        s.valid := by
      intro s hs2
      have hs3 : s ∈ [B, A] := hs2
      simp only [List.mem_cons, List.not_mem_nil, or_false] at hs3
      rcases hs3 with rfl | rfl
      · exact hB
      · exact hA
    refine ⟨_, _, reply_pack_eq ⟨hf, hs⟩,
      reply_pack_eq ⟨hf, hs'⟩, ?_, ?_⟩
    · intro heq
      have hd := congrArg (List.drop 12) heq
      rw [flow_stats_reply.bytes_drop12, flow_stats_reply.bytes_drop12] at hd
      have hd2 : A.bytes ++ (B.bytes ++ ([] : List Nat)) =
          B.bytes ++ (A.bytes ++ []) := hd
      simp only [List.append_nil] at hd2
      exact hne (entry_bytes_comm hA hB hd2)
    · rw [reply_bytes_length, reply_bytes_length]
      show 12 + (List.map (fun s => s.bytes.length) [A, B]).sum =
        12 + (List.map (fun s => s.bytes.length) [B, A]).sum
      simp only [List.map_cons, List.map_nil, List.sum_cons, List.sum_nil]
      omega

/-- Witness for C8: a one-action instruction versus an empty
instruction inside a fresh entry, and a fresh entry versus a
priority-1 entry inside a fresh reply — swapping append order changes
the bytes but not the length. -/
theorem C8_order_sensitivity_witness :
    (∃ bs1 bs2,
      ({ flow_stats_entry.new with instructions :=
          [{ actions := [{ port := 3 }] }, instruction_apply_actions.new] } :
        flow_stats_entry).pack = Except.ok bs1 ∧
      ({ flow_stats_entry.new with instructions :=
          [instruction_apply_actions.new, { actions := [{ port := 3 }] }] } :
        flow_stats_entry).pack = Except.ok bs2 ∧
      bs1 ≠ bs2 ∧ bs1.length = bs2.length) ∧
    (∃ bs1 bs2,
      ({ flow_stats_reply.new with stats :=
          [flow_stats_entry.new, { flow_stats_entry.new with priority := 1 }] } :
        flow_stats_reply).pack = Except.ok bs1 ∧
      ({ flow_stats_reply.new with stats :=
          [{ flow_stats_entry.new with priority := 1 }, flow_stats_entry.new] } :
        flow_stats_reply).pack = Except.ok bs2 ∧
      bs1 ≠ bs2 ∧ bs1.length = bs2.length) :=
  ⟨C8_order_sensitivity.1 flow_stats_entry.new
      { actions := [{ port := 3 }] } instruction_apply_actions.new
      (by decide) (by decide),
   C8_order_sensitivity.2 flow_stats_reply.new
      flow_stats_entry.new { flow_stats_entry.new with priority := 1 }
      (by decide) (by decide)⟩
